import Mathlib

/-!
Verification of the retro-desktop shell (`src/gpt5.py`): shallow embedding of
its three core primitives — the terminal line-discipline buffer
(`TerminalWindow`), the window stack (`Win95Window` lift/destroy and drag
handlers), and the cross-thread metrics pipeline (`event_q` producer/consumer
in `RetroDesktop`) — together with theorems settling the specification's
claims about them.

Conventions of the embedding:
* A Tk `Text` widget's content is modelled as a `List Char` WITHOUT the
  automatic trailing newline Tk maintains, so the Tk index `end-1c`
  corresponds to the offset `buf.length`, and `insert("end", s)` appends.
* Tk indices stored by the program (`_input_start_idx`) are snapshots, kept
  as `Nat` offsets; the `insert` mark (cursor) is a `Nat` offset with right
  gravity: an insertion at the end moves it along only when it sat at the end.
* Python floats used for times and rates are modelled as `ℚ`; pixel
  coordinates are `Int`.
-/

namespace WebOS95

/-- Python whitespace, as recognised by `str.strip`/`str.split`. -/
def isPySpace (c : Char) : Bool :=
  c = ' ' || c = '\t' || c = '\n' || c = '\r' || c = '\x0b' || c = '\x0c'

/-- Drop leading Python whitespace (the left half of `str.strip`). -/
def stripL (l : List Char) : List Char := l.dropWhile isPySpace

/-- Drop trailing Python whitespace (the right half of `str.strip`). -/
def stripR (l : List Char) : List Char := (stripL l.reverse).reverse

/-- Python `str.strip()`: remove leading and trailing whitespace. -/
def pyStrip (l : List Char) : List Char := stripR (stripL l)

/-- Python `str.split()` with no separator: split on runs of whitespace,
    never producing empty words.  `acc` holds the current word reversed. -/
def pySplitAux : List Char → List Char → List (List Char)
  | [], acc => if acc = [] then [] else [acc.reverse]
  | c :: cs, acc =>
      if isPySpace c then
        if acc = [] then pySplitAux cs [] else acc.reverse :: pySplitAux cs []
      else pySplitAux cs (c :: acc)

/-- Python `cmd.split()` as used by `_default_commands`. -/
def pySplit (l : List Char) : List (List Char) := pySplitAux l []

/-- Python `"\n".split` on an explicit separator `"\n"` (keeps empty pieces),
    as used by `handle_command` on the collaborator's output. -/
def splitNl : List Char → List (List Char)
  | [] => [[]]
  | c :: cs =>
      if c = '\n' then [] :: splitNl cs
      else
        match splitNl cs with
        | [] => [[c]]
        | h :: t => (c :: h) :: t

/-- Python `" ".join(args)` as used by the `echo` command. -/
def joinSpace : List (List Char) → List Char
  | [] => []
  | [w] => w
  | w :: ws => w ++ ' ' :: joinSpace ws

/-! ## Terminal buffer (`TerminalWindow`)

State of the `tk.Text` widget together with the two pieces of program state
`_input_start_idx` (a stored index snapshot) and the `insert` mark. -/

/-- The terminal's text-widget state: `buf` is the widget content without
    Tk's automatic trailing newline, `input_start` is the stored
    `_input_start_idx` offset, `cursor` is the `insert` mark offset. -/
structure Term where
  buf : List Char
  input_start : Nat
  cursor : Nat
  deriving Repr, DecidableEq

/-- Well-formedness: the stored index and the insert mark lie inside the
    widget content (Tk clamps marks into range). -/
def Wf (t : Term) : Prop := t.input_start ≤ t.buf.length ∧ t.cursor ≤ t.buf.length

instance (t : Term) : Decidable (Wf t) := by unfold Wf; infer_instance

/-- The prompt string `self.prompt = "C:\\webos95> "`. -/
def promptL : List Char := "C:\\webos95> ".toList

/-- `text.insert("end", s)`: append at the end.  The `insert` mark has right
    gravity, so it moves past the appended text only when it sat at the end. -/
def insertAtEnd (t : Term) (s : List Char) : Term :=
  { t with buf := t.buf ++ s
           cursor := if t.cursor = t.buf.length then t.buf.length + s.length
                     else t.cursor }

/-- `_append_line(s)`: `text.insert("end", s + "\n")`. -/
def appendLine (t : Term) (s : List Char) : Term := insertAtEnd t (s ++ ['\n'])

/-- `_write_prompt()`: append the prompt, then set
    `_input_start_idx = index("end-1c")`. -/
def writePrompt (t : Term) : Term :=
  let t1 := insertAtEnd t promptL
  { t1 with input_start := t1.buf.length }

/-- List insertion at an offset, the effect of Tk's default key binding
    inserting a character at the `insert` mark. -/
def insertAt (l : List Char) (i : Nat) (c : Char) : List Char :=
  l.take i ++ c :: l.drop i

/-- Keyboard events reaching `_on_key` that mutate the buffer: printable
    character insertion and BackSpace. -/
inductive Key where
  | char (c : Char)
  | backspace
  deriving Repr, DecidableEq

/-- The cursor position after `_on_key`'s guard block: if the `insert` mark
    is before `_input_start_idx` it is moved to `end-1c` (`buf.length`). -/
def clampedCursor (t : Term) : Nat :=
  if t.cursor < t.input_start then t.buf.length else t.cursor

/-- `_on_key` followed by Tk's default edit binding: first the cursor clamp,
    then for BackSpace the guard (`insert <= _input_start_idx` returns
    "break", suppressing the edit) or the default delete-before-cursor, and
    for a character key the default insert-at-cursor. -/
def onKey (t : Term) (k : Key) : Term :=
  let t1 := if t.cursor < t.input_start then { t with cursor := t.buf.length }
            else t
  match k with
  | .backspace =>
      if t1.cursor ≤ t1.input_start then t1
      else { t1 with buf := t1.buf.eraseIdx (t1.cursor - 1)
                     cursor := t1.cursor - 1 }
  | .char c =>
      { t1 with buf := insertAt t1.buf t1.cursor c, cursor := t1.cursor + 1 }

/-- An edit operation on the terminal: a key event, or a pointer/keyboard
    cursor move (`mark_set insert`, clamped into the widget by Tk). -/
inductive EditOp where
  | key (k : Key)
  | moveCursor (p : Nat)
  deriving Repr, DecidableEq

/-- One edit operation. -/
def applyEdit (t : Term) : EditOp → Term
  | .key k => onKey t k
  | .moveCursor p => { t with cursor := min p t.buf.length }

/-- A sequence of edit operations, oldest first. -/
def applyEdits (t : Term) (ops : List EditOp) : Term :=
  ops.foldl applyEdit t

/-- The command text captured by `_on_return`:
    `line = text.get(_input_start_idx, "end-1c"); cmd = line.strip()`. -/
def capturedCmd (t : Term) : List Char := pyStrip (t.buf.drop t.input_start)

/-- The help text returned for `help` / `?`. -/
def helpText : List Char :=
  ("Commands:\n" ++
   "  help          Show this help\n" ++
   "  echo [text]   Echo text\n" ++
   "  time          Show current time\n" ++
   "  clear         Clear screen\n" ++
   "  about         About this OS\n" ++
   "  vibes         Show vibe status\n").toList

/-- The `about` text. -/
def aboutText : List Char :=
  ("webOS 95 Vibes — single shot, Tkinter + Pygame headless loop.\n" ++
   "Everything 100% in one file. FPS vibes on.").toList

/-- The `vibes` text. -/
def vibesText : List Char := "Vibes = ON. 600 fps spirit mode.".toList

/-- `text.delete("1.0", "end")` as issued by the `clear` command: the widget
    is emptied and the `insert` mark collapses to the start; the stored
    `_input_start_idx` snapshot is not touched by the deletion. -/
def clearAll (t : Term) : Term := { t with buf := [], cursor := 0 }

/-- `_default_commands(cmd)`, with the nondeterministic `time.strftime`
    output passed in as `ts`.  Returns the updated widget state (only the
    `clear` branch mutates it) and the returned output string. -/
def defaultCommands (t : Term) (cmd ts : List Char) : Term × List Char :=
  match pySplit cmd with
  | [] => (t, [])
  | p0 :: args =>
      let name := p0.map Char.toLower
      if name = "help".toList ∨ name = "?".toList then (t, helpText)
      else if name = "echo".toList then (t, joinSpace args)
      else if name = "time".toList then (t, ts)
      else if name = "clear".toList then (clearAll t, [])
      else if name = "about".toList then (t, aboutText)
      else if name = "vibes".toList then (t, vibesText)
      else (t, "Unknown command: ".toList ++ name)

/-- `handle_command(cmd)` with the default command table: run the command,
    then append each line of a non-empty output (`if out: for line in
    out.split("\n"): _append_line(line)`). -/
def handleCommand (t : Term) (cmd ts : List Char) : Term :=
  let (t1, out) := defaultCommands t cmd ts
  if out = [] then t1 else (splitNl out).foldl appendLine t1

/-- `_on_return`: capture and strip the input line, append the newline,
    dispatch the command, write a fresh prompt.  Returns the new state and
    the command text that was dispatched to `handle_command`. -/
def onReturn (t : Term) (ts : List Char) : Term × List Char :=
  let cmd := capturedCmd t
  let t1 := appendLine t []
  let t2 := handleCommand t1 cmd ts
  (writePrompt t2, cmd)

/-! ## Window stack (`Win95Window` stacking and drag)

Windows are Tk sibling widgets placed on the desktop; their stacking order
is a back-to-front list.  `lift()` raises a window to the top without
changing the relative order of the others; `destroy_window` removes it. -/

abbrev WinId := Nat

/-- The desktop's back-to-front stacking order of window ids. -/
structure Stack where
  order : List WinId
  deriving Repr, DecidableEq

/-- `widget.lift()`: raise an existing window to the top of the stacking
    order; ids not in the stack are left alone (Tk has no such sibling). -/
def liftWin (s : Stack) (w : WinId) : Stack :=
  if w ∈ s.order then ⟨s.order.erase w ++ [w]⟩ else s

/-- Creating a new window (`Win95Window.__init__` via `place`): the fresh
    widget appears on top of its siblings. -/
def openWin (s : Stack) (w : WinId) : Stack := ⟨s.order ++ [w]⟩

/-- A press on a window's title bar: `on_drag_start` (and the `<Button-1>`
    bindings) call `self.lift()`. -/
def press (s : Stack) (w : WinId) : Stack := liftWin s w

/-- `destroy_window()`: `place_forget` + `destroy` removes the window from
    the stacking order. -/
def closeWin (s : Stack) (w : WinId) : Stack := ⟨s.order.erase w⟩

/-- Modelled from the spec: the source keeps no separate focus flag on
    windows; per the spec's data model ("the window with the highest z-order
    rank is the one most recently focused or pressed") the focused window is
    the frontmost one, `none` when the stack is empty. -/
def focusedWin (s : Stack) : Option WinId := s.order.getLast?

/-- Sequences of window-manager events the spec quantifies over. -/
inductive WOp where
  | opn (w : WinId)
  | prs (w : WinId)
  deriving Repr, DecidableEq

/-- Run a sequence of opens and presses. -/
def runWOps (s : Stack) (ops : List WOp) : Stack :=
  ops.foldl (fun s op => match op with
    | .opn w => openWin s w
    | .prs w => press s w) s

/-! ## Drag gesture (`on_drag_start` / `on_drag_move` / `on_drag_end`)

`event.x`/`event.y` are pointer coordinates relative to the title-bar
widget, which sits at a fixed offset `k` from the window origin (the
window's `place` position plus the border), itself measured in the parent's
coordinate system.  A pointer at parent-coordinates `s` over a window with
origin `o` therefore reports `event = s - (o + k)`. -/

/-- The window-movement state of one `Win95Window`: its `place` origin and
    the `_drag` dict. -/
structure Win where
  x : Int
  y : Int
  dragX : Int
  dragY : Int
  active : Bool
  deriving Repr, DecidableEq

/-- `on_drag_start(event)`: record the widget-local press point, activate.
    Dead code in the program: `__init__` first binds `<ButtonPress-1>` on the
    titlebar and title label to this handler, but then re-binds `<Button-1>`
    — the same Tk event sequence — on the same widgets to a lift-only
    lambda, and `bind` without `add` replaces the earlier binding, so a real
    press never invokes this handler. -/
def onDragStart (w : Win) (ex ey : Int) : Win :=
  { w with dragX := ex, dragY := ey, active := true }

/-- `on_drag_move(event)`: no-op unless active; otherwise move the window by
    the widget-local delta. -/
def onDragMove (w : Win) (ex ey : Int) : Win :=
  if w.active then
    { w with x := w.x + (ex - w.dragX), y := w.y + (ey - w.dragY) }
  else w

/-- `on_drag_end(_)`: deactivate. -/
def onDragEnd (w : Win) : Win := { w with active := false }

/-- A motion event with the pointer at parent-coordinates `m`, for a title
    bar at offset `k` from the window origin: Tk reports
    `event = m - (origin+k)`.  `<B1-Motion>` is bound to `on_drag_move`. -/
def moveAt (w : Win) (k : Int × Int) (m : Int × Int) : Win :=
  onDragMove w (m.1 - (w.x + k.1)) (m.2 - (w.y + k.2))

/-- A whole drag gesture as the program actually wires it: the handler run
    on the title-bar press is the lift-only `<Button-1>` lambda — the
    `<ButtonPress-1>` binding to `on_drag_start` was replaced by it (same Tk
    event sequence), so the press leaves the window's `_drag` record and
    origin untouched — then the motion events at pointer positions `ms`
    (oldest first) run `on_drag_move`, then the release runs `on_drag_end`.
    `_p` is the press point, which the surviving handler ignores. -/
def actualDragGesture (w : Win) (k _p : Int × Int) (ms : List (Int × Int)) : Win :=
  onDragEnd (ms.foldl (moveAt · k ·) w)

/-! ## Metrics pipeline (`event_q`, `_schedule_ui_tick`, `_pygame_loop`) -/

/-- An event on the inter-thread queue: the pygame loop posts
    `{"type": "fps", "value": fps}`; a `vibe` event is ignored. -/
inductive Evt where
  | fps (value : ℚ)
  | vibe
  deriving Repr, DecidableEq

/-- The consumer-side state: the FIFO `queue.Queue` contents (oldest first)
    and the `fps_value` field. -/
structure Desk where
  event_q : List Evt
  fps_value : ℚ
  deriving Repr, DecidableEq

/-- `event_q.put_nowait(evt)`: the queue is unbounded, so this always
    succeeds, appending at the tail. -/
def publish (d : Desk) (e : Evt) : Desk := { d with event_q := d.event_q ++ [e] }

/-- Processing one drained event inside `_schedule_ui_tick`. -/
def drainStep (d : Desk) (e : Evt) : Desk :=
  match e with
  | .fps v => { d with fps_value := v }
  | .vibe => d

/-- The drain in `_schedule_ui_tick`: `get_nowait` in a loop until
    `queue.Empty`, processing each event in FIFO order. -/
def uiDrain (d : Desk) : Desk :=
  { event_q := [], fps_value := (d.event_q.foldl drainStep d).fps_value }

/-- The producer-thread state of `_pygame_loop`: the dead `acc_time`
    accumulator, the frame counter, the last report instant, and (as the
    model of `put_nowait` onto `event_q`) the list of published rates. -/
structure Loop where
  acc_time : ℚ
  frames : Nat
  last_report : ℚ
  published : List ℚ
  deriving Repr, DecidableEq

/-- One iteration of the `while self.running` body: `clock.tick` returned
    `dt_ms` milliseconds and `time.time()` now reads `now`. -/
def loopTick (st : Loop) (dt_ms now : ℚ) : Loop :=
  let dt := dt_ms / 1000
  let frames := st.frames + 1
  let acc := st.acc_time + dt
  if now - st.last_report ≥ 1/4 then
    { acc_time := acc
      frames := 0
      last_report := now
      published := st.published ++ [(frames : ℚ) / (now - st.last_report)] }
  else
    { st with frames := frames, acc_time := acc }

/-! ## Helper lemmas -/

/-- `writePrompt` always leaves the stored input-start index at the end of
    the widget content. -/
theorem writePrompt_input_start (u : Term) :
    (writePrompt u).input_start = (writePrompt u).buf.length := by
  simp [writePrompt, insertAtEnd]

/-- `on_drag_move` with the drag inactive is a complete no-op. -/
theorem moveAt_inactive (w : Win) (k m : Int × Int) (h : w.active = false) :
    moveAt w k m = w := by
  simp [moveAt, onDragMove, h]

/-- Any number of motion events on a window whose drag is inactive leaves
    the window unchanged. -/
theorem foldl_moveAt_inactive (k : Int × Int) (ms : List (Int × Int))
    (w : Win) (h : w.active = false) :
    ms.foldl (moveAt · k ·) w = w := by
  induction ms with
  | nil => rfl
  | cons m rest ih =>
      rw [List.foldl_cons, moveAt_inactive w k m h]
      exact ih

/-! ## C1–C10 theorems -/

/-- C1: publishing samples `s1, s2, s3` on the metrics channel and then
    draining once leaves the observed latest sample equal to `s3` (never
    `s1` or `s2`) and the queue empty; a further drain with no publish in
    between finds the queue empty and changes nothing. -/
theorem metrics_latest_wins (d : Desk) (s1 s2 s3 : ℚ) :
    (uiDrain (publish (publish (publish d (Evt.fps s1)) (Evt.fps s2)) (Evt.fps s3))).fps_value = s3 ∧
    (uiDrain (publish (publish (publish d (Evt.fps s1)) (Evt.fps s2)) (Evt.fps s3))).event_q = [] ∧
    uiDrain (uiDrain (publish (publish (publish d (Evt.fps s1)) (Evt.fps s2)) (Evt.fps s3))) =
      uiDrain (publish (publish (publish d (Evt.fps s1)) (Evt.fps s2)) (Evt.fps s3)) := by
  refine ⟨?_, rfl, ?_⟩ <;> simp [uiDrain, publish, drainStep, List.foldl_append]

/-- C6: a BackSpace issued with the insertion cursor exactly at
    `input_start` is a complete no-op on the terminal state (in particular
    the buffer contents and length are unchanged), and the handler is total
    so no error is raised. -/
theorem backspace_at_input_start_noop (t : Term) (h : t.cursor = t.input_start) :
    onKey t Key.backspace = t := by
  simp [onKey, h]

/-- Witness for `backspace_at_input_start_noop` at a concrete state. -/
theorem backspace_at_input_start_noop_witness :
    onKey ⟨"ab".toList, 2, 2⟩ Key.backspace = ⟨"ab".toList, 2, 2⟩ :=
  backspace_at_input_start_noop ⟨"ab".toList, 2, 2⟩ rfl

/-- C5: immediately after `_on_return` (submit) returns — whatever the
    prior state, the dispatched command, and the collaborator output,
    including the buffer-wiping `clear` — the stored `input_start` equals
    the length of the whole buffer, i.e. the new end of the transcript
    including the freshly written prompt. -/
theorem submit_input_start_at_end (t : Term) (ts : List Char) :
    (onReturn t ts).1.input_start = (onReturn t ts).1.buf.length :=
  writePrompt_input_start _

/-- C4 (code bug): dragging is inert in the program.  `__init__` binds
    `<ButtonPress-1>` to `on_drag_start` but then re-binds `<Button-1>` —
    the same Tk event sequence — on the same widgets to a lift-only lambda,
    replacing the earlier binding, so `_drag["active"]` (initialised
    `False`) is never set `True` and `on_drag_move` never moves the window.
    Hence for every drag gesture from any state with the drag inactive —
    every reachable state — the final window origin equals the original
    origin, contradicting the claimed displacement `release − press`
    whenever the release point differs from the press point. -/
theorem actual_drag_leaves_origin (w : Win) (k p : Int × Int)
    (ms : List (Int × Int)) (hact : w.active = false) :
    (actualDragGesture w k p ms).x = w.x ∧
    (actualDragGesture w k p ms).y = w.y := by
  unfold actualDragGesture
  rw [foldl_moveAt_inactive k ms w hact]
  exact ⟨rfl, rfl⟩

/-- Witness for `actual_drag_leaves_origin` at the failing input: a freshly
    created window at (80, 80) (its `_drag` is `{"x": 0, "y": 0,
    "active": False}`), pressed at (100, 100), moved to (120, 110) and
    released there, stays at (80, 80) — the claim would put it at
    (100, 90). -/
theorem actual_drag_leaves_origin_witness :
    (actualDragGesture ⟨80, 80, 0, 0, false⟩ (1, 2) (100, 100) [(120, 110)]).x = 80 ∧
    (actualDragGesture ⟨80, 80, 0, 0, false⟩ (1, 2) (100, 100) [(120, 110)]).y = 80 :=
  actual_drag_leaves_origin ⟨80, 80, 0, 0, false⟩ (1, 2) (100, 100) [(120, 110)] rfl

/-- C3: after any sequence of window opens and presses, a press on a window
    `w` present on the desktop puts `w` at the top of the z-order, makes it
    the focused window, leaves no other window focused, and reorders nothing
    else (the others keep their relative order). -/
theorem press_raises_and_focuses (s0 : Stack) (ops : List WOp) (w : WinId)
    (hw : w ∈ (runWOps s0 ops).order) :
    (press (runWOps s0 ops) w).order.getLast? = some w ∧
    focusedWin (press (runWOps s0 ops) w) = some w ∧
    (∀ v, focusedWin (press (runWOps s0 ops) w) = some v → v = w) ∧
    (press (runWOps s0 ops) w).order = (runWOps s0 ops).order.erase w ++ [w] := by
  have horder : (press (runWOps s0 ops) w).order =
      (runWOps s0 ops).order.erase w ++ [w] := by
    simp [press, liftWin, hw]
  refine ⟨?_, ?_, ?_, horder⟩
  · rw [horder]; exact List.getLast?_concat _
  · rw [focusedWin, horder]; exact List.getLast?_concat _
  · intro v hv
    rw [focusedWin, horder, List.getLast?_concat] at hv
    exact (Option.some_inj.mp hv).symm

/-- Witness for `press_raises_and_focuses`: open windows 1, 2, 3 and press
    window 2. -/
theorem press_raises_and_focuses_witness :
    (press (runWOps ⟨[]⟩ [WOp.opn 1, WOp.opn 2, WOp.opn 3]) 2).order.getLast? = some 2 ∧
    focusedWin (press (runWOps ⟨[]⟩ [WOp.opn 1, WOp.opn 2, WOp.opn 3]) 2) = some 2 ∧
    (∀ v, focusedWin (press (runWOps ⟨[]⟩ [WOp.opn 1, WOp.opn 2, WOp.opn 3]) 2) = some v → v = 2) ∧
    (press (runWOps ⟨[]⟩ [WOp.opn 1, WOp.opn 2, WOp.opn 3]) 2).order =
      (runWOps ⟨[]⟩ [WOp.opn 1, WOp.opn 2, WOp.opn 3]).order.erase 2 ++ [2] :=
  press_raises_and_focuses ⟨[]⟩ [WOp.opn 1, WOp.opn 2, WOp.opn 3] 2 (by decide)

/-- C8: closing a window removes it from the stack; if it was the focused
    (frontmost) window, the remaining stack is the old one without its top,
    so focus passes to the window with the next-highest z-order — or to no
    window when the stack becomes empty (`getLast? = none`). -/
theorem close_transfers_focus (s : Stack) (w : WinId) (hnd : s.order.Nodup) :
    w ∉ (closeWin s w).order ∧
    (focusedWin s = some w →
      (closeWin s w).order = s.order.dropLast ∧
      focusedWin (closeWin s w) = s.order.dropLast.getLast?) := by
  constructor
  · exact hnd.not_mem_erase
  · intro hfoc
    obtain ⟨l', hl⟩ := List.getLast?_eq_some_iff.mp hfoc
    have hwl : w ∉ l' := by
      intro hmem
      have : ¬ s.order.Nodup := by
        rw [hl]
        simp [List.nodup_append, hmem]
      exact this hnd
    have horder : (closeWin s w).order = l' := by
      simp [closeWin, hl, List.erase_append_right _ hwl]
    have hdrop : s.order.dropLast = l' := by rw [hl]; exact List.dropLast_concat
    exact ⟨by rw [horder, hdrop], by rw [focusedWin, horder, hdrop]⟩

/-- Witness for `close_transfers_focus`: close the focused window 3 of the
    stack `[1, 2, 3]`. -/
theorem close_transfers_focus_witness :
    3 ∉ (closeWin ⟨[1, 2, 3]⟩ 3).order ∧
    (focusedWin ⟨[1, 2, 3]⟩ = some 3 →
      (closeWin ⟨[1, 2, 3]⟩ 3).order = ([1, 2, 3] : List WinId).dropLast ∧
      focusedWin (closeWin ⟨[1, 2, 3]⟩ 3) = ([1, 2, 3] : List WinId).dropLast.getLast?) :=
  close_transfers_focus ⟨[1, 2, 3]⟩ 3 (by decide)

/-- C7 counterexample: the claim also asserts that the accumulated elapsed
    time is reset to zero when a reporting window ends; in the code the
    `acc_time` accumulator is never reset.  Concretely, starting from the
    fresh state and ticking once with `dt_ms = 300` at `now = 0.3` ends a
    reporting window (a sample is published) yet `acc_time = 0.3 ≠ 0`. -/
theorem acc_time_never_reset_cex :
    (loopTick ⟨0, 0, 0, []⟩ 300 (3/10)).published ≠ [] ∧
    (loopTick ⟨0, 0, 0, []⟩ 300 (3/10)).acc_time ≠ 0 := by
  constructor <;> norm_num [loopTick]

/-- C7 (amended): at the end of every reporting window (reached when
    `now - last_report ≥ 0.25`) the published rate equals
    `frames / elapsed_in_window` with `elapsed_in_window = now - last_report`
    and `frames` counting this tick; the frame counter is reset to zero and
    `last_report` is set to `now`, restarting the window's elapsed time at
    zero — but the separate `acc_time` accumulator keeps growing by
    `dt_ms / 1000` and is never reset. -/
theorem report_rate_and_reset (st : Loop) (dt_ms now : ℚ)
    (h : now - st.last_report ≥ 1/4) :
    loopTick st dt_ms now =
      { acc_time := st.acc_time + dt_ms / 1000
        frames := 0
        last_report := now
        published := st.published ++ [((st.frames : ℚ) + 1) / (now - st.last_report)] } := by
  simp only [loopTick, if_pos h, Loop.mk.injEq]
  refine ⟨trivial, trivial, trivial, ?_⟩
  push_cast
  ring_nf

/-- Witness for `report_rate_and_reset`: one tick from the fresh state with
    `dt_ms = 300` at `now = 0.3` publishes the rate `1 / 0.3 = 10/3`. -/
theorem report_rate_and_reset_witness :
    loopTick ⟨0, 0, 0, []⟩ 300 (3/10) =
      { acc_time := (0 : ℚ) + 300 / 1000
        frames := 0
        last_report := 3/10
        published := [] ++ [(((0 : Nat) : ℚ) + 1) / (3/10 - 0)] } :=
  report_rate_and_reset ⟨0, 0, 0, []⟩ 300 (3/10) (by norm_num)

/-- Inserting at an offset `i ≥ n` leaves the first `n` elements unchanged
    (given `n` is inside the list). -/
theorem take_insertAt (l : List Char) (i n : Nat) (c : Char)
    (hni : n ≤ i) (hnl : n ≤ l.length) :
    (insertAt l i c).take n = l.take n := by
  unfold insertAt
  rw [List.take_append_of_le_length (by simp; omega), List.take_take,
    Nat.min_eq_left hni]

/-- Erasing at an offset `i ≥ n` leaves the first `n` elements unchanged
    (given `n` is inside the list). -/
theorem take_eraseIdx (l : List Char) (i n : Nat)
    (hni : n ≤ i) (hnl : n ≤ l.length) :
    (l.eraseIdx i).take n = l.take n := by
  rw [List.eraseIdx_eq_take_drop_succ,
    List.take_append_of_le_length (by simp; omega), List.take_take,
    Nat.min_eq_left hni]

/-- One edit operation preserves well-formedness, the stored `input_start`,
    and the committed part of the buffer (everything before `input_start`). -/
theorem applyEdit_preserves (t : Term) (op : EditOp) (hwf : Wf t) :
    Wf (applyEdit t op) ∧
    (applyEdit t op).input_start = t.input_start ∧
    (applyEdit t op).buf.take t.input_start = t.buf.take t.input_start := by
  obtain ⟨his, hcur⟩ := hwf
  cases op with
  | moveCursor p =>
      refine ⟨⟨his, ?_⟩, rfl, rfl⟩
      show min p t.buf.length ≤ t.buf.length
      omega
  | key k =>
      cases k with
      | char c =>
          by_cases hlt : t.cursor < t.input_start
          · have hres : applyEdit t (EditOp.key (Key.char c)) =
                { t with buf := insertAt t.buf t.buf.length c
                         cursor := t.buf.length + 1 } := by
              simp only [applyEdit, onKey, if_pos hlt]
            have hlen : (insertAt t.buf t.buf.length c).length = t.buf.length + 1 := by
              simp only [insertAt, List.length_append, List.length_take,
                List.length_cons, List.length_drop]
              omega
            rw [hres]
            refine ⟨⟨?_, ?_⟩, rfl, take_insertAt _ _ _ _ his his⟩
            · show t.input_start ≤ (insertAt t.buf t.buf.length c).length
              omega
            · show t.buf.length + 1 ≤ (insertAt t.buf t.buf.length c).length
              omega
          · have hres : applyEdit t (EditOp.key (Key.char c)) =
                { t with buf := insertAt t.buf t.cursor c
                         cursor := t.cursor + 1 } := by
              simp only [applyEdit, onKey, if_neg hlt]
            have hlen : (insertAt t.buf t.cursor c).length = t.buf.length + 1 := by
              simp only [insertAt, List.length_append, List.length_take,
                List.length_cons, List.length_drop]
              omega
            rw [hres]
            refine ⟨⟨?_, ?_⟩, rfl, take_insertAt _ _ _ _ (by omega) his⟩
            · show t.input_start ≤ (insertAt t.buf t.cursor c).length
              omega
            · show t.cursor + 1 ≤ (insertAt t.buf t.cursor c).length
              omega
      | backspace =>
          by_cases hlt : t.cursor < t.input_start
          · by_cases hle : t.buf.length ≤ t.input_start
            · have hres : applyEdit t (EditOp.key Key.backspace) =
                  { t with cursor := t.buf.length } := by
                simp only [applyEdit, onKey, if_pos hlt, if_pos hle]
              rw [hres]
              exact ⟨⟨his, le_refl _⟩, rfl, rfl⟩
            · have hres : applyEdit t (EditOp.key Key.backspace) =
                  { t with buf := t.buf.eraseIdx (t.buf.length - 1)
                           cursor := t.buf.length - 1 } := by
                simp only [applyEdit, onKey, if_pos hlt, if_neg hle]
              push_neg at hle
              have hlen : (t.buf.eraseIdx (t.buf.length - 1)).length =
                  t.buf.length - 1 := by
                rw [List.length_eraseIdx]
                simp only [if_pos (show t.buf.length - 1 < t.buf.length by omega)]
              rw [hres]
              refine ⟨⟨?_, ?_⟩, rfl, take_eraseIdx _ _ _ (by omega) his⟩
              · show t.input_start ≤ (t.buf.eraseIdx (t.buf.length - 1)).length
                omega
              · show t.buf.length - 1 ≤ (t.buf.eraseIdx (t.buf.length - 1)).length
                omega
          · push_neg at hlt
            by_cases hle : t.cursor ≤ t.input_start
            · have hres : applyEdit t (EditOp.key Key.backspace) = t := by
                simp only [applyEdit, onKey, if_neg (by omega : ¬ t.cursor < t.input_start),
                  if_pos hle]
              rw [hres]
              exact ⟨⟨his, hcur⟩, rfl, rfl⟩
            · have hres : applyEdit t (EditOp.key Key.backspace) =
                  { t with buf := t.buf.eraseIdx (t.cursor - 1)
                           cursor := t.cursor - 1 } := by
                simp only [applyEdit, onKey, if_neg (by omega : ¬ t.cursor < t.input_start),
                  if_neg hle]
              push_neg at hle
              have hlen : (t.buf.eraseIdx (t.cursor - 1)).length =
                  t.buf.length - 1 := by
                rw [List.length_eraseIdx]
                simp only [if_pos (show t.cursor - 1 < t.buf.length by omega)]
              rw [hres]
              refine ⟨⟨?_, ?_⟩, rfl, take_eraseIdx _ _ _ (by omega) his⟩
              · show t.input_start ≤ (t.buf.eraseIdx (t.cursor - 1)).length
                omega
              · show t.cursor - 1 ≤ (t.buf.eraseIdx (t.cursor - 1)).length
                omega

/-- C2: over every sequence of terminal edit operations (key strokes and
    cursor moves) from a well-formed state, `input_start` never changes and
    the committed transcript before `input_start` is never modified — no
    edit deletes or inserts inside it — and on each key event the insertion
    cursor is clamped to a position `≥ input_start` before the edit fires
    (`clampedCursor` is the post-guard cursor of `_on_key`). -/
theorem edits_preserve_committed (t : Term) (ops : List EditOp) (hwf : Wf t) :
    (applyEdits t ops).input_start = t.input_start ∧
    (applyEdits t ops).buf.take t.input_start = t.buf.take t.input_start ∧
    t.input_start ≤ clampedCursor t := by
  have hclamp : t.input_start ≤ clampedCursor t := by
    unfold clampedCursor
    split <;> [exact hwf.1; omega]
  suffices h : ∀ ops t, Wf t →
      (applyEdits t ops).input_start = t.input_start ∧
      (applyEdits t ops).buf.take t.input_start = t.buf.take t.input_start by
    obtain ⟨h1, h2⟩ := h ops t hwf
    exact ⟨h1, h2, hclamp⟩
  intro ops
  induction ops with
  | nil => exact fun t _ => ⟨rfl, rfl⟩
  | cons op rest ih =>
      intro t hwf
      obtain ⟨hstepwf, hstepis, hsteptake⟩ := applyEdit_preserves t op hwf
      obtain ⟨h1, h2⟩ := ih (applyEdit t op) hstepwf
      refine ⟨by simpa [applyEdits] using h1.trans hstepis, ?_⟩
      have h2' := h2
      rw [hstepis] at h2'
      simpa [applyEdits] using h2'.trans hsteptake

/-- Witness for `edits_preserve_committed`: from the state with committed
    text `"C:\> "` and input `"ab"`, move the cursor to 0, backspace twice,
    and type `x`. -/
theorem edits_preserve_committed_witness :
    (applyEdits ⟨"C:\\> ab".toList, 5, 2⟩
        [EditOp.moveCursor 0, EditOp.key Key.backspace,
         EditOp.key Key.backspace, EditOp.key (Key.char 'x')]).input_start = 5 ∧
    (applyEdits ⟨"C:\\> ab".toList, 5, 2⟩
        [EditOp.moveCursor 0, EditOp.key Key.backspace,
         EditOp.key Key.backspace, EditOp.key (Key.char 'x')]).buf.take 5 =
      ("C:\\> ab".toList).take 5 ∧
    5 ≤ clampedCursor ⟨"C:\\> ab".toList, 5, 2⟩ :=
  edits_preserve_committed ⟨"C:\\> ab".toList, 5, 2⟩
    [EditOp.moveCursor 0, EditOp.key Key.backspace,
     EditOp.key Key.backspace, EditOp.key (Key.char 'x')] (by decide)

/-- Stripping ignores an all-whitespace block on the left. -/
theorem pyStrip_space_append (w l : List Char) (hw : ∀ c ∈ w, isPySpace c) :
    pyStrip (w ++ l) = pyStrip l := by
  unfold pyStrip stripL
  rw [List.dropWhile_append_of_pos hw]

/-- An all-whitespace list strips to nothing on the right. -/
theorem stripR_all_space (l : List Char) (hl : ∀ c ∈ l, isPySpace c) :
    stripR l = [] := by
  unfold stripR stripL
  rw [List.dropWhile_eq_nil_iff.mpr fun c hc => hl c (List.mem_reverse.mp hc)]
  rfl

/-- Stripping ignores an all-whitespace block on the right. -/
theorem pyStrip_append_space (l w : List Char) (hw : ∀ c ∈ w, isPySpace c) :
    pyStrip (l ++ w) = pyStrip l := by
  by_cases hl : stripL l = []
  · have hls : ∀ c ∈ l, isPySpace c := List.dropWhile_eq_nil_iff.mp hl
    have h1 : stripL (l ++ w) = stripL w := List.dropWhile_append_of_pos hls
    have h2 : ∀ c ∈ stripL w, isPySpace c :=
      fun c hc => hw c ((List.dropWhile_sublist _).mem hc)
    unfold pyStrip
    rw [h1, hl, stripR_all_space _ h2]
    rfl
  · have h1 : stripL (l ++ w) = stripL l ++ w := by
      unfold stripL
      rw [List.dropWhile_append]
      simp only [List.isEmpty_iff]
      exact if_neg hl
    show stripR (stripL (l ++ w)) = stripR (stripL l)
    rw [h1]
    show (stripL ((stripL l ++ w).reverse)).reverse = stripR (stripL l)
    rw [List.reverse_append]
    rw [show stripL (w.reverse ++ (stripL l).reverse) = stripL ((stripL l).reverse) from
      List.dropWhile_append_of_pos fun c hc => hw c (List.mem_reverse.mp hc)]
    rfl

/-- C9: the command text dispatched by `_on_return` is the input line with
    leading and trailing whitespace stripped, not the verbatim substring
    after `input_start`: for any committed text and any whitespace blocks
    `w1`, `w2` around the payload `s`, the dispatched text equals
    `pyStrip s`; in particular two raw input lines differing only in their
    surrounding whitespace dispatch the same command text. -/
theorem dispatched_cmd_is_stripped (committed w1 s w2 : List Char)
    (cur : Nat) (ts : List Char)
    (h1 : ∀ c ∈ w1, isPySpace c) (h2 : ∀ c ∈ w2, isPySpace c) :
    (onReturn ⟨committed ++ (w1 ++ s ++ w2), committed.length, cur⟩ ts).2 = pyStrip s ∧
    (onReturn ⟨committed ++ (w1 ++ s ++ w2), committed.length, cur⟩ ts).2 =
      (onReturn ⟨committed ++ s, committed.length, cur⟩ ts).2 := by
  have hcap : ∀ x : List Char,
      (onReturn ⟨committed ++ x, committed.length, cur⟩ ts).2 = pyStrip x := by
    intro x
    show capturedCmd ⟨committed ++ x, committed.length, cur⟩ = pyStrip x
    unfold capturedCmd
    rw [show (Term.mk (committed ++ x) committed.length cur).buf.drop
          (Term.mk (committed ++ x) committed.length cur).input_start = x from
        List.drop_left committed x]
  have hmain : (onReturn ⟨committed ++ (w1 ++ s ++ w2), committed.length, cur⟩ ts).2 =
      pyStrip s := by
    rw [hcap (w1 ++ s ++ w2), List.append_assoc, pyStrip_space_append _ _ h1,
      pyStrip_append_space _ _ h2]
  exact ⟨hmain, by rw [hmain, hcap s]⟩

/-- Witness for `dispatched_cmd_is_stripped`: the input `"  echo hi "` after
    the prompt dispatches the same text as `"echo hi"`. -/
theorem dispatched_cmd_is_stripped_witness :
    (onReturn ⟨promptL ++ ("  ".toList ++ "echo hi".toList ++ " ".toList),
        promptL.length, 0⟩ []).2 = pyStrip "echo hi".toList ∧
    (onReturn ⟨promptL ++ ("  ".toList ++ "echo hi".toList ++ " ".toList),
        promptL.length, 0⟩ []).2 =
      (onReturn ⟨promptL ++ "echo hi".toList, promptL.length, 0⟩ []).2 :=
  dispatched_cmd_is_stripped promptL "  ".toList "echo hi".toList " ".toList
    0 [] (by decide) (by decide)

/-- C10: submitting an input line whose first whitespace-separated token
    lowercases to `clear` wipes the whole buffer — committed transcript
    included — and leaves exactly the freshly written prompt, with
    `input_start` right after it. -/
theorem clear_leaves_only_prompt (t : Term) (ts : List Char)
    (p0 : List Char) (args : List (List Char))
    (hsplit : pySplit (capturedCmd t) = p0 :: args)
    (hname : p0.map Char.toLower = "clear".toList) :
    (onReturn t ts).1.buf = promptL ∧
    (onReturn t ts).1.input_start = promptL.length := by
  have hdc : defaultCommands (appendLine t []) (capturedCmd t) ts =
      (clearAll (appendLine t []), []) := by
    unfold defaultCommands
    rw [hsplit]
    simp only [hname]
    simp
  have hhc : handleCommand (appendLine t []) (capturedCmd t) ts =
      clearAll (appendLine t []) := by
    unfold handleCommand
    rw [hdc]
    simp
  have hres : (onReturn t ts).1 = writePrompt (clearAll (appendLine t [])) := by
    show writePrompt (handleCommand (appendLine t []) (capturedCmd t) ts) =
      writePrompt (clearAll (appendLine t []))
    rw [hhc]
  rw [hres]
  constructor
  · show ([] : List Char) ++ promptL = promptL
    rfl
  · show (([] : List Char) ++ promptL).length = promptL.length
    rfl

/-- Witness for `clear_leaves_only_prompt`: a transcript with the prompt and
    the typed input `"clear"`. -/
theorem clear_leaves_only_prompt_witness :
    (onReturn ⟨promptL ++ "clear".toList, promptL.length,
        (promptL ++ "clear".toList).length⟩ []).1.buf = promptL ∧
    (onReturn ⟨promptL ++ "clear".toList, promptL.length,
        (promptL ++ "clear".toList).length⟩ []).1.input_start = promptL.length :=
  clear_leaves_only_prompt _ [] "clear".toList []
    (by decide) (by decide)

end WebOS95
